import Mathlib

/-!
Verification development for the `lcsc-orders-tracker` scripts.

The pipeline in `update.py` concatenates per-order CSV exports, merges
duplicate line items by part number with a pandas groupby-aggregate, rebuilds
the extended price, derives order metadata from filenames, and deduplicates a
per-file order summary.  The crawler in `crawl_lcsc.py` runs a sequential
fetch loop that skips failing parts.

Modelling conventions:
* monetary and quantity cells are exact rationals; pandas `.round(2)` is
  modelled as decimal rounding half-to-even at 2 places;
* a missing cell (pandas `NaN`) is `none`; a column that is absent from the
  whole table is recorded in `ColFlags`;
* pandas aggregation semantics are kept: `sum` skips nulls (empty sum is 0),
  `max` skips nulls (all-null gives null), `first` takes the first non-null
  value in group order;
* `groupby` drops rows whose key is null and lists group keys in ascending
  order (the default `sort=True`); strings are ordered lexicographically by
  code point, as Python compares `str` values.
-/

unseal Rat.add Rat.mul Rat.inv Rat.sub

namespace LcscTracker

/-- Round a rational to the nearest integer, half to even (the rounding used
by numpy/pandas `.round`). -/
def rhe (q : ℚ) : ℤ :=
  if q - ⌊q⌋ < 1/2 then ⌊q⌋
  else if 1/2 < q - ⌊q⌋ then ⌊q⌋ + 1
  else if ⌊q⌋ % 2 = 0 then ⌊q⌋ else ⌊q⌋ + 1

/-- pandas `.round(2)`: round to two decimal places, half to even. -/
def round2 (q : ℚ) : ℚ := (rhe (q * 100) : ℚ) / 100

/-- Lexicographic comparison of strings by code point, the order Python uses
on `str` and pandas uses when sorting object columns. -/
def charLL : List Char → List Char → Bool
  | [], _ => true
  | _ :: _, [] => false
  | a :: as, b :: bs =>
    if a.toNat < b.toNat then true
    else if b.toNat < a.toNat then false
    else charLL as bs

/-- String order as a proposition. -/
def strLe (a b : String) : Prop := charLL a.data b.data = true

instance : DecidableRel strLe := fun a b =>
  inferInstanceAs (Decidable (charLL a.data b.data = true))

/-- Binary maximum of strings under the code-point order. -/
def strMax (a b : String) : String := if charLL a.data b.data then b else a

/-- Binary maximum of rationals. -/
def qMax (a b : ℚ) : ℚ := if a ≤ b then b else a

/-- One row of the working table (`combined_df` in `update.py`), restricted to
the columns the merge block treats specially, plus `package` standing for a
representative column that is only backfilled (lines 137-140). -/
structure Row where
  lcscPart : Option String
  quantity : Option ℚ
  unitPrice : Option ℚ
  extPrice : Option ℚ
  description : Option String
  mpn : Option String
  lastUpdate : Option String
  package : Option String
deriving DecidableEq

/-- Which columns are present in the table: `update.py` existence-checks every
column (`if qty_col in combined_df.columns: ...`, lines 115-127) before adding
it to `agg_dict`. -/
structure ColFlags where
  hasQty : Bool
  hasPrice : Bool
  hasExt : Bool
  hasDesc : Bool
  hasMpn : Bool
  hasLast : Bool
  hasPkg : Bool
deriving DecidableEq

/-- pandas `first` aggregation: the first non-null value, null if none. -/
def firstSome {α : Type} : List (Option α) → Option α
  | [] => none
  | some a :: _ => some a
  | none :: rest => firstSome rest

/-- pandas `sum` aggregation: nulls are skipped, the empty sum is 0. -/
def optSum (xs : List (Option ℚ)) : ℚ := (xs.filterMap id).sum

/-- pandas `max` aggregation: nulls are skipped, all-null gives null. -/
def optMax {α : Type} (mx : α → α → α) : List (Option α) → Option α
  | [] => none
  | none :: rest => optMax mx rest
  | some a :: rest =>
    match optMax mx rest with
    | none => some a
    | some b => some (mx a b)

/-- The rows of one group: all rows whose `LCSC Part Number` cell equals the
group key.  Rows with a null part number fall in no group (pandas `groupby`
default `dropna=True`). -/
def groupRows (rows : List Row) (k : String) : List Row :=
  rows.filter (fun r => r.lcscPart == some k)

/-- The distinct non-null part numbers, in ascending order, exactly the group
keys `combined_df.groupby(part_col)` (line 129, default `sort=True`) produces. -/
def tableKeys (rows : List Row) : List String :=
  List.insertionSort strLe (rows.filterMap Row.lcscPart).dedup

/-- The aggregated row of one group, following `agg_dict` (lines 115-129):
quantity `sum`, unit price `max`, extended price `sum`, description and MPN
`first`, `Last Update` `max`; the non-aggregated `package` is backfilled with
`first` (lines 137-140).  Absent columns stay absent. -/
def aggRow (f : ColFlags) (g : List Row) (k : String) : Row where
  lcscPart := some k
  quantity := if f.hasQty then some (optSum (g.map Row.quantity)) else none
  unitPrice := if f.hasPrice then optMax qMax (g.map Row.unitPrice) else none
  extPrice := if f.hasExt then some (optSum (g.map Row.extPrice)) else none
  description := if f.hasDesc then firstSome (g.map Row.description) else none
  mpn := if f.hasMpn then firstSome (g.map Row.mpn) else none
  lastUpdate := if f.hasLast then optMax strMax (g.map Row.lastUpdate) else none
  package := if f.hasPkg then firstSome (g.map Row.package) else none

/-- The post-merge recompute of `Ext.Price($)` (lines 131-135): whenever both
`Quantity` and `Unit Price($)` columns exist, the extended price is overwritten
with `(qty * price).round(2)`; a null factor propagates to a null result. -/
def recompute (f : ColFlags) (r : Row) : Row :=
  if f.hasQty && f.hasPrice then
    { r with extPrice :=
        match r.quantity, r.unitPrice with
        | some q, some p => some (round2 (q * p))
        | _, _ => none }
  else r

/-- The whole merge block of `update.py` (lines 106-145): group by part number,
aggregate each group, then recompute the extended price. -/
def mergeStep (f : ColFlags) (rows : List Row) : List Row :=
  (tableKeys rows).map (fun k => recompute f (aggRow f (groupRows rows k) k))

/-- Flag set of a table that carries all modelled columns. -/
def allFlags : ColFlags := ⟨true, true, true, true, true, true, true⟩

/-! ### Filename parsing (`update.py` lines 14-20 and 38-48) -/

/-- Character class `[A-Z0-9]` of the order-id group in the filename regex. -/
def isOrderIdChar (c : Char) : Bool := c.isUpper || c.isDigit

/-- Match of the regex tail `(\d{8})\d+\.csv$`: a run of at least 9 digits
followed by the literal `.csv` and the end of the string (the dot cannot be a
digit, so greedy matching is deterministic); returns the captured first 8
digits. -/
def matchDigitsCsv (cs : List Char) : Option (List Char) :=
  let ds := cs.takeWhile Char.isDigit
  if 9 ≤ ds.length && cs.dropWhile Char.isDigit == ['.', 'c', 's', 'v'] then
    some (ds.take 8)
  else none

/-- re.match of `^LCSC__([A-Z0-9]+)_(\d{8})\d+\.csv$` (`update.py` line 40).
The captured group 1 must be a nonempty run over `[A-Z0-9]`; since `_` is not
in that class, the greedy match is the maximal such run.  Returns (order
number, 8-digit date string) on success. -/
def matchOrderFilename (filename : String) : Option (String × String) :=
  match filename.data with
  | 'L' :: 'C' :: 'S' :: 'C' :: '_' :: '_' :: rest =>
    match rest.takeWhile isOrderIdChar, rest.dropWhile isOrderIdChar with
    | [], _ => none
    | oid, '_' :: tail =>
      match matchDigitsCsv tail with
      | some ds => some (String.mk oid, String.mk ds)
      | none => none
    | _, _ => none
  | _ => none

/-- `_parse_order_date` (`update.py` lines 14-20): re.match of
`^WM(\d{2})(\d{2})(\d{2})` against the order number; on success the date
`20YY-MM-DD`, otherwise the sentinel `Unknown`. -/
def parseOrderDate (orderNumber : String) : String :=
  match orderNumber.data with
  | 'W' :: 'M' :: y1 :: y2 :: m1 :: m2 :: d1 :: d2 :: _ =>
    if y1.isDigit && y2.isDigit && m1.isDigit && m2.isDigit && d1.isDigit && d2.isDigit then
      String.mk ['2', '0', y1, y2, '-', m1, m2, '-', d1, d2]
    else "Unknown"
  | _ => "Unknown"

/-- Numeric value of a decimal digit character. -/
def digitVal (c : Char) : ℕ := c.toNat - 48

/-- Number of days of a month in the proleptic Gregorian calendar. -/
def daysInMonth (y m : ℕ) : ℕ :=
  if m = 2 then (if (y % 4 = 0 ∧ y % 100 ≠ 0) ∨ y % 400 = 0 then 29 else 28)
  else if m = 4 ∨ m = 6 ∨ m = 9 ∨ m = 11 then 30 else 31

/-- `datetime.strptime(s, '%Y%m%d').strftime('%Y-%m-%d')` on the 8 captured
digits (`update.py` line 47): validates the calendar date and reformats with
dashes; `none` models the `ValueError` strptime raises on an invalid date. -/
def formatFilenameDate (ds : List Char) : Option String :=
  match ds with
  | [a, b, c, d, e, f, g, h] =>
    let y := 1000 * digitVal a + 100 * digitVal b + 10 * digitVal c + digitVal d
    let m := 10 * digitVal e + digitVal f
    let dd := 10 * digitVal g + digitVal h
    if 1 ≤ m ∧ m ≤ 12 ∧ 1 ≤ dd ∧ dd ≤ daysInMonth y m then
      some (String.mk [a, b, c, d, '-', e, f, '-', g, h])
    else none
  | _ => none

/-- Per-file derivation of order number and order date (`update.py` lines
38-48): filenames that miss the pattern give the `Unknown` sentinels; matching
filenames prefer the date embedded in the order number and fall back to the
8-digit filename timestamp.  `none` models an unhandled strptime exception. -/
def deriveOrderIdDate (filename : String) : Option (String × String) :=
  match matchOrderFilename filename with
  | none => some ("Unknown", "Unknown")
  | some (oid, ds) =>
    let d := parseOrderDate oid
    if d = "Unknown" then
      match formatFilenameDate ds.data with
      | some d2 => some (oid, d2)
      | none => none
    else some (oid, d)

/-! ### Orders table deduplication (`update.py` lines 166-178) -/

/-- One entry of `orders_info` (`update.py` lines 54-67). -/
structure OrderEntry where
  orderNum : String
  lastUpdate : String
  sourceFile : String
  totalValue : ℚ
deriving DecidableEq

/-- `pd.to_datetime(.., errors='coerce')` on the `YYYY-MM-DD` strings this
pipeline produces: a valid ISO date becomes a comparable key, anything else
(for example the sentinel `Unknown`) becomes `NaT`, modelled as `none`. -/
def parseIsoDate (s : String) : Option ℕ :=
  match s.data with
  | [a, b, c, d, '-', e, f, '-', g, h] =>
    if a.isDigit ∧ b.isDigit ∧ c.isDigit ∧ d.isDigit ∧ e.isDigit ∧ f.isDigit ∧
        g.isDigit ∧ h.isDigit then
      let y := 1000 * digitVal a + 100 * digitVal b + 10 * digitVal c + digitVal d
      let m := 10 * digitVal e + digitVal f
      let dd := 10 * digitVal g + digitVal h
      if 1 ≤ m ∧ m ≤ 12 ∧ 1 ≤ dd ∧ dd ≤ daysInMonth y m then
        some (10000 * y + 100 * m + dd)
      else none
    else none
  | _ => none

/-- Sort key of an entry: `NaT` (unparseable date) sorts as the oldest, which
is what `ascending=False` with the default `na_position='last'` produces. -/
def dateKey (e : OrderEntry) : ℕ :=
  match parseIsoDate e.lastUpdate with
  | none => 0
  | some v => v + 1

/-- The row order of `sort_values(['Last Update', 'Order #'],
ascending=[False, True])` (`update.py` line 172): most recent date first,
ties broken by ascending order number. -/
def ordRel (a b : OrderEntry) : Prop :=
  dateKey b < dateKey a ∨ (dateKey a = dateKey b ∧ strLe a.orderNum b.orderNum)

instance : DecidableRel ordRel := fun a b =>
  inferInstanceAs
    (Decidable (dateKey b < dateKey a ∨ (dateKey a = dateKey b ∧ strLe a.orderNum b.orderNum)))

/-- `drop_duplicates(subset=['Order #'], keep='first')` (`update.py` line 175):
keep each entry whose order number has not been seen earlier in the list. -/
def dedupSeen (seen : List String) : List OrderEntry → List OrderEntry
  | [] => []
  | e :: rest =>
    if e.orderNum ∈ seen then dedupSeen seen rest
    else e :: dedupSeen (e.orderNum :: seen) rest

/-- The orders-table deduplication pipeline (`update.py` lines 166-178): sort
by date descending (unparseable dates last) with order number as tie-break,
then keep the first entry per order number. -/
def dedupOrders (entries : List OrderEntry) : List OrderEntry :=
  dedupSeen [] (List.insertionSort ordRel entries)

/-! ### Crawler loop (`crawl_lcsc.py` lines 216-253) -/

/-- The successful result of a fetch, if any. -/
def exceptOk {α : Type} : Except String α → Option α
  | Except.ok a => some a
  | Except.error _ => none

/-- The per-part loop of `run_crawl` (`crawl_lcsc.py` lines 234-245), with the
fetch-and-parse of one part (`fetch_product`, plus the optional image download
that happens before the append) abstracted as an oracle returning either a
finished record or an exception message.  Returns the accumulated records and
the `[WARN]` log lines, both in input order: a failing part appends no record,
only a warning naming the part and the message, and the loop continues. -/
def runCrawlLoop {α : Type} (fetchOne : String → Except String α) :
    List String → List α × List String
  | [] => ([], [])
  | p :: rest =>
    match fetchOne p with
    | Except.ok r =>
      let t := runCrawlLoop fetchOne rest
      (r :: t.1, t.2)
    | Except.error e =>
      let t := runCrawlLoop fetchOne rest
      (t.1, ("[WARN] Failed " ++ p ++ ": " ++ e) :: t.2)

/-! ### Concrete inputs used by counterexamples and witnesses -/

/-- Row of the spec example: quantity 10 at unit price 0.10 for part C1. -/
def c4Row1 : Row := ⟨some "C1", some 10, some (1/10), none, none, none, none, none⟩

/-- Row of the spec example: quantity 5 at unit price 0.12 for part C1. -/
def c4Row2 : Row := ⟨some "C1", some 5, some (3/25), none, none, none, none, none⟩

/-- Table flags of the spec example: only quantity and unit price present. -/
def c4Flags : ColFlags := ⟨true, true, false, false, false, false, false⟩

/-- Line item for part C1 with a pre-existing extended price of 1.00. -/
def exRowA : Row := ⟨some "C1", some 10, some (1/10), some 1, none, none, none, none⟩

/-- Line item for part C1 with a pre-existing extended price of 0.60. -/
def exRowB : Row := ⟨some "C1", some 5, some (3/25), some (3/5), none, none, none, none⟩

/-- A single-occurrence line item whose stored extended price 999 disagrees
with quantity times unit price. -/
def c5Row : Row :=
  ⟨some "C9", some 10, some (1/10), some 999, some "diode", some "D1", some "2024-01-02",
    some "SOT-23"⟩

/-- A single-occurrence line item whose stored extended price already equals
`round2` of quantity times unit price. -/
def c5GoodRow : Row :=
  ⟨some "C9", some 10, some (1/10), some 1, some "diode", some "D1", some "2024-01-02",
    some "SOT-23"⟩

/-- Duplicate line item for part C2 with a null description. -/
def c8RowA : Row := ⟨some "C2", some 1, some 1, some 1, none, some "M1", some "2024-01-01", none⟩

/-- Duplicate line item for part C2 with a non-null description. -/
def c8RowB : Row :=
  ⟨some "C2", some 2, some 2, some 4, some "Resistor", some "M2", some "2024-02-02", none⟩

/-- A line item with a null part number. -/
def nullRow : Row := ⟨none, some 3, some 1, some 3, none, none, none, none⟩

/-- Order-summary entry for order EX123, dated 2024-01-02 (an order number
without an embedded date takes its date from the filename timestamp, so the
same order can appear with two dates). -/
def oe1 : OrderEntry := ⟨"EX123", "2024-01-02", "LCSC__EX123_20240102000000.csv", 1⟩

/-- Order-summary entry for the same order number, dated 2024-03-04. -/
def oe2 : OrderEntry := ⟨"EX123", "2024-03-04", "LCSC__EX123_20240304000000.csv", 2⟩

/-- Order-summary entry with unparseable ("Unknown") date. -/
def oe3 : OrderEntry := ⟨"Unknown", "Unknown", "stray.csv", 0⟩

/-! ## Order and aggregation lemmas -/

theorem charLL_cons (a b : Char) (as bs : List Char) :
    charLL (a :: as) (b :: bs) = true ↔
      a.toNat < b.toNat ∨ (a.toNat = b.toNat ∧ charLL as bs = true) := by
  simp only [charLL]
  split_ifs with h1 h2
  · simp [h1]
  · simp only [Bool.false_eq_true, false_iff]
    rintro (h | ⟨h, -⟩) <;> omega
  · have hab : a.toNat = b.toNat := by omega
    simp [hab]

theorem charLL_refl : ∀ as, charLL as as = true
  | [] => rfl
  | a :: as => (charLL_cons a a as as).mpr (Or.inr ⟨rfl, charLL_refl as⟩)

theorem charLL_total : ∀ as bs, charLL as bs = true ∨ charLL bs as = true
  | [], _ => Or.inl rfl
  | _ :: _, [] => Or.inr rfl
  | a :: as, b :: bs => by
    rw [charLL_cons, charLL_cons]
    rcases Nat.lt_trichotomy a.toNat b.toNat with h | h | h
    · exact Or.inl (Or.inl h)
    · rcases charLL_total as bs with ih | ih
      · exact Or.inl (Or.inr ⟨h, ih⟩)
      · exact Or.inr (Or.inr ⟨h.symm, ih⟩)
    · exact Or.inr (Or.inl h)

theorem charLL_trans : ∀ as bs cs, charLL as bs = true → charLL bs cs = true →
    charLL as cs = true
  | [], _, _, _, _ => rfl
  | _ :: _, [], _, h1, _ => by simp [charLL] at h1
  | _ :: _, _ :: _, [], _, h2 => by simp [charLL] at h2
  | a :: as, b :: bs, c :: cs, h1, h2 => by
    rw [charLL_cons] at h1 h2 ⊢
    rcases h1 with h1 | ⟨h1, h1'⟩ <;> rcases h2 with h2 | ⟨h2, h2'⟩
    · exact Or.inl (by omega)
    · exact Or.inl (by omega)
    · exact Or.inl (by omega)
    · exact Or.inr ⟨by omega, charLL_trans as bs cs h1' h2'⟩

theorem strLe_refl (a : String) : strLe a a := charLL_refl a.data

theorem strLe_total (a b : String) : strLe a b ∨ strLe b a := charLL_total a.data b.data

theorem strLe_trans {a b c : String} (h1 : strLe a b) (h2 : strLe b c) : strLe a c :=
  charLL_trans a.data b.data c.data h1 h2

theorem strMax_choice (a b : String) : strMax a b = a ∨ strMax a b = b := by
  unfold strMax; split
  · exact Or.inr rfl
  · exact Or.inl rfl

theorem strLe_strMax_left (a b : String) : strLe a (strMax a b) := by
  unfold strMax; split
  · next h => exact h
  · exact strLe_refl a

theorem strLe_strMax_right (a b : String) : strLe b (strMax a b) := by
  unfold strMax; split
  · exact strLe_refl b
  · next h => exact (charLL_total a.data b.data).resolve_left h

theorem optMax_str_mem : ∀ (xs : List (Option String)) (t : String),
    optMax strMax xs = some t → some t ∈ xs
  | [], t, h => by simp [optMax] at h
  | none :: rest, t, h => by
    simp only [optMax] at h
    exact List.mem_cons_of_mem _ (optMax_str_mem rest t h)
  | some a :: rest, t, h => by
    simp only [optMax] at h
    cases hr : optMax strMax rest with
    | none =>
      rw [hr] at h
      cases h
      exact List.mem_cons_self _ _
    | some b =>
      rw [hr] at h
      cases h
      rcases strMax_choice a b with hc | hc
      · rw [hc]; exact List.mem_cons_self _ _
      · rw [hc]; exact List.mem_cons_of_mem _ (optMax_str_mem rest b hr)

theorem optMax_str_dom : ∀ (xs : List (Option String)) (s : String),
    some s ∈ xs → ∃ t, optMax strMax xs = some t ∧ strLe s t
  | [], s, h => by simp at h
  | none :: rest, s, h => by
    rcases List.mem_cons.mp h with h' | h'
    · cases h'
    · obtain ⟨t, ht, hle⟩ := optMax_str_dom rest s h'
      exact ⟨t, by simp only [optMax]; exact ht, hle⟩
  | some a :: rest, s, h => by
    rcases List.mem_cons.mp h with h' | h'
    · obtain rfl : s = a := Option.some.inj h'
      cases hr : optMax strMax rest with
      | none => exact ⟨s, by simp only [optMax, hr], strLe_refl s⟩
      | some b => exact ⟨strMax s b, by simp only [optMax, hr], strLe_strMax_left s b⟩
    · obtain ⟨t, ht, hle⟩ := optMax_str_dom rest s h'
      cases hr : optMax strMax rest with
      | none => rw [hr] at ht; cases ht
      | some b =>
        rw [hr] at ht
        cases ht
        exact ⟨strMax a t, by simp only [optMax, hr], strLe_trans hle (strLe_strMax_right a t)⟩

theorem firstSome_single {α : Type} (x : Option α) : firstSome [x] = x := by
  cases x <;> rfl

theorem optMax_single {α : Type} (mx : α → α → α) (x : Option α) : optMax mx [x] = x := by
  cases x <;> rfl

theorem optSum_single (q : ℚ) : optSum [some q] = q := by
  simp [optSum]

theorem recompute_lcscPart (f : ColFlags) (r : Row) :
    (recompute f r).lcscPart = r.lcscPart := by
  unfold recompute; split <;> rfl

theorem recompute_quantity (f : ColFlags) (r : Row) :
    (recompute f r).quantity = r.quantity := by
  unfold recompute; split <;> rfl

theorem recompute_unitPrice (f : ColFlags) (r : Row) :
    (recompute f r).unitPrice = r.unitPrice := by
  unfold recompute; split <;> rfl

theorem recompute_description (f : ColFlags) (r : Row) :
    (recompute f r).description = r.description := by
  unfold recompute; split <;> rfl

theorem recompute_mpn (f : ColFlags) (r : Row) :
    (recompute f r).mpn = r.mpn := by
  unfold recompute; split <;> rfl

theorem recompute_lastUpdate (f : ColFlags) (r : Row) :
    (recompute f r).lastUpdate = r.lastUpdate := by
  unfold recompute; split <;> rfl

theorem recompute_package (f : ColFlags) (r : Row) :
    (recompute f r).package = r.package := by
  unfold recompute; split <;> rfl

theorem mem_tableKeys {rows : List Row} {k : String} :
    k ∈ tableKeys rows ↔ some k ∈ rows.map Row.lcscPart := by
  unfold tableKeys
  rw [(List.perm_insertionSort strLe _).mem_iff, List.mem_dedup, List.mem_filterMap]
  simp [List.mem_map]

theorem nodup_tableKeys (rows : List Row) : (tableKeys rows).Nodup := by
  unfold tableKeys
  exact ((List.perm_insertionSort strLe _).nodup_iff).mpr (List.nodup_dedup _)

theorem mergeStep_map_part (f : ColFlags) (rows : List Row) :
    (mergeStep f rows).map Row.lcscPart = (tableKeys rows).map some := by
  unfold mergeStep
  rw [List.map_map]
  exact List.map_congr_left fun k _ => by
    rw [Function.comp_apply, recompute_lcscPart]; rfl

/-! ## Claims -/

/-- C1: after the merge step the aggregated table has at most one row per
distinct non-null part identifier — no two rows of the merged output share
the same `LCSC Part Number` value. -/
theorem merged_parts_pairwise_ne (f : ColFlags) (rows : List Row) :
    (mergeStep f rows).Pairwise (fun a b => a.lcscPart ≠ b.lcscPart) := by
  unfold mergeStep
  refine List.Pairwise.map _ ?_ (nodup_tableKeys rows)
  intro a b hab
  rw [recompute_lcscPart, recompute_lcscPart]
  show some a ≠ some b
  simpa using hab

/-- C10: rows whose part identifier is null are silently dropped by the
grouping — every merged row has a non-null part identifier, and a non-null
part identifier appears in the merged output exactly when it appears in the
input. -/
theorem null_parts_dropped (f : ColFlags) (rows : List Row) (k : String) :
    (∀ r ∈ mergeStep f rows, r.lcscPart ≠ none) ∧
    (some k ∈ (mergeStep f rows).map Row.lcscPart ↔ some k ∈ rows.map Row.lcscPart) := by
  constructor
  · intro r hr
    obtain ⟨k', _, rfl⟩ := List.mem_map.mp hr
    rw [recompute_lcscPart]
    show some k' ≠ none
    simp
  · rw [mergeStep_map_part, ← mem_tableKeys]
    simp [List.mem_map]

/-- C10 witness: on a table holding one null-part row and two C1 rows, the
merged output drops the null row and keeps the C1 key. -/
theorem null_parts_dropped_witness :
    (∀ r ∈ mergeStep allFlags [nullRow, exRowA, exRowB], r.lcscPart ≠ none) ∧
    (some "C1" ∈ (mergeStep allFlags [nullRow, exRowA, exRowB]).map Row.lcscPart ↔
      some "C1" ∈ [nullRow, exRowA, exRowB].map Row.lcscPart) :=
  null_parts_dropped allFlags [nullRow, exRowA, exRowB] "C1"

/-- C4: two one-row inputs for part C1 with quantities 10 and 5 and unit
prices 0.10 and 0.12 merge into exactly one row with quantity 15, unit price
0.12 (the maximum), and extended price 1.80 = round2(15 × 0.12). -/
theorem example_two_files_c1 :
    mergeStep c4Flags [c4Row1, c4Row2] =
      [⟨some "C1", some 15, some (3/25), some (9/5), none, none, none, none⟩] := by
  decide

/-- C3: when both the quantity and the unit-price columns are present, every
merged row's extended price equals round2(aggregated quantity × aggregated
maximum unit price) — a null aggregated price propagates to a null extended
price.  This holds regardless of whether pre-merge extended prices were
summed, because the recompute (update.py lines 132-135) runs afterwards. -/
theorem ext_eq_round_qty_mul_price (f : ColFlags) (rows : List Row)
    (hq : f.hasQty = true) (hp : f.hasPrice = true)
    (r : Row) (hr : r ∈ mergeStep f rows) :
    ∃ q : ℚ, r.quantity = some q ∧
      r.extPrice = Option.map (fun p => round2 (q * p)) r.unitPrice := by
  obtain ⟨k, hk, rfl⟩ := List.mem_map.mp hr
  have hqp : (f.hasQty && f.hasPrice) = true := by rw [hq, hp]; rfl
  refine ⟨optSum ((groupRows rows k).map Row.quantity), ?_, ?_⟩
  · rw [recompute_quantity]
    simp [aggRow, hq]
  · rw [recompute_unitPrice]
    unfold recompute
    rw [if_pos hqp]
    simp only [aggRow, hq, hp, if_true]
    cases optMax qMax ((groupRows rows k).map Row.unitPrice) <;> rfl

/-- C3 witness: the merged C1 row of the two-row table with pre-existing
extended prices satisfies the recompute equation. -/
theorem ext_eq_round_qty_mul_price_witness :
    allFlags.hasQty = true ∧ allFlags.hasPrice = true ∧
    (⟨some "C1", some 15, some (3/25), some (9/5), none, none, none, none⟩ : Row) ∈
      mergeStep allFlags [exRowA, exRowB] ∧
    (∃ q : ℚ,
      (⟨some "C1", some 15, some (3/25), some (9/5), none, none, none, none⟩ : Row).quantity =
        some q ∧
      (⟨some "C1", some 15, some (3/25), some (9/5), none, none, none, none⟩ : Row).extPrice =
        Option.map (fun p => round2 (q * p))
          (⟨some "C1", some 15, some (3/25), some (9/5), none, none, none, none⟩ : Row).unitPrice) :=
  ⟨rfl, rfl, by decide,
    ext_eq_round_qty_mul_price allFlags [exRowA, exRowB] rfl rfl _ (by decide)⟩

/-- C2 counterexample: two C1 rows carry pre-existing extended prices 1.00
and 0.60, which sum to 1.60, but the merged row's extended price is
1.80 = round2(15 × 0.12): the recompute replaces the summed value, so the
summed extended price is not carried into the output. -/
theorem ext_sum_replaced_cex :
    optSum ([exRowA, exRowB].map Row.extPrice) = 8/5 ∧
    (mergeStep allFlags [exRowA, exRowB]).map Row.extPrice = [some (9/5)] ∧
    ¬ (9 : ℚ)/5 = 8/5 := by
  decide

/-- C2 (amended): during the group merge the pre-existing extended prices are
summed, but whenever both the quantity and the unit-price columns are present
the subsequent recompute replaces that sum with round2(summed quantity ×
maximum unit price); the summed value survives into the output only when the
quantity or the unit-price column is absent. -/
theorem ext_price_policy (f : ColFlags) (rows : List Row) (k : String)
    (hk : k ∈ tableKeys rows) (he : f.hasExt = true) :
    recompute f (aggRow f (groupRows rows k) k) ∈ mergeStep f rows ∧
    (recompute f (aggRow f (groupRows rows k) k)).extPrice =
      (if f.hasQty && f.hasPrice then
        Option.map (fun p => round2 (optSum ((groupRows rows k).map Row.quantity) * p))
          (optMax qMax ((groupRows rows k).map Row.unitPrice))
      else some (optSum ((groupRows rows k).map Row.extPrice))) := by
  constructor
  · exact List.mem_map_of_mem _ hk
  · by_cases hqp : (f.hasQty && f.hasPrice) = true
    · rw [if_pos hqp]
      unfold recompute
      rw [if_pos hqp]
      obtain ⟨hq, hp⟩ := Bool.and_eq_true_iff.mp hqp
      simp only [aggRow, hq, hp, if_true]
      cases optMax qMax ((groupRows rows k).map Row.unitPrice) <;> rfl
    · rw [if_neg hqp]
      unfold recompute
      rw [if_neg hqp]
      simp [aggRow, he]

/-- C2 (amended) witness: on the two-row C1 table with all columns present,
the merged extended price follows the recompute branch of the policy. -/
theorem ext_price_policy_witness :
    "C1" ∈ tableKeys [exRowA, exRowB] ∧ allFlags.hasExt = true ∧
    (recompute allFlags (aggRow allFlags (groupRows [exRowA, exRowB] "C1") "C1") ∈
        mergeStep allFlags [exRowA, exRowB] ∧
      (recompute allFlags (aggRow allFlags (groupRows [exRowA, exRowB] "C1") "C1")).extPrice =
        (if allFlags.hasQty && allFlags.hasPrice then
          Option.map
            (fun p => round2 (optSum ((groupRows [exRowA, exRowB] "C1").map Row.quantity) * p))
            (optMax qMax ((groupRows [exRowA, exRowB] "C1").map Row.unitPrice))
        else some (optSum ((groupRows [exRowA, exRowB] "C1").map Row.extPrice)))) :=
  ⟨by decide, rfl, ext_price_policy allFlags [exRowA, exRowB] "C1" (by decide) rfl⟩

/-- C5 counterexample: a part number occurring in exactly one row is not left
unchanged by the merge — the recompute rewrites its stored extended price 999
to round2(10 × 0.10) = 1, so aggregation is not the identity on singleton
groups. -/
theorem singleton_not_identity_cex :
    groupRows [c5Row] "C9" = [c5Row] ∧ mergeStep allFlags [c5Row] ≠ [c5Row] := by
  decide

/-- C5 (amended): for a group holding a single line item whose quantity and
unit-price cells are non-null, aggregation over the all-columns table leaves
every field unchanged except the extended price, which is set to
round2(quantity × unit price); in particular the row is fully unchanged iff
its stored extended price already equals that rounded product. -/
theorem singleton_agg_changes_only_ext (rows : List Row) (k : String) (r : Row) (q p : ℚ)
    (hg : groupRows rows k = [r]) (hq : r.quantity = some q) (hp : r.unitPrice = some p) :
    { r with extPrice := some (round2 (q * p)) } ∈ mergeStep allFlags rows ∧
    ({ r with extPrice := some (round2 (q * p)) } = r ↔
      r.extPrice = some (round2 (q * p))) := by
  have hrg : r ∈ groupRows rows k := hg ▸ List.mem_singleton_self r
  obtain ⟨hrows, hbeq⟩ := List.mem_filter.mp hrg
  have hpart : r.lcscPart = some k := eq_of_beq hbeq
  have hk : k ∈ tableKeys rows :=
    mem_tableKeys.mpr (List.mem_map.mpr ⟨r, hrows, hpart⟩)
  have key : recompute allFlags (aggRow allFlags [r] k) =
      { r with extPrice := some (round2 (q * p)) } := by
    rcases r with ⟨rp, rq, rpr, re, rd, rm, rl, rg⟩
    simp only at hq hp hpart
    subst hq hp hpart
    simp [recompute, aggRow, allFlags, optSum, optMax_single, firstSome_single]
  constructor
  · have hmem : recompute allFlags (aggRow allFlags (groupRows rows k) k) ∈
        mergeStep allFlags rows :=
      List.mem_map_of_mem _ hk
    rw [hg, key] at hmem
    exact hmem
  · rcases r with ⟨rp, rq, rpr, re, rd, rm, rl, rg⟩
    simp [Row.mk.injEq, eq_comm]

/-- C5 (amended) witness: a singleton row whose stored extended price equals
round2(quantity × unit price) passes through the merge unchanged. -/
theorem singleton_agg_changes_only_ext_witness :
    groupRows [c5GoodRow] "C9" = [c5GoodRow] ∧ c5GoodRow.quantity = some 10 ∧
    c5GoodRow.unitPrice = some (1/10) ∧
    ({ c5GoodRow with extPrice := some (round2 (10 * (1/10))) } ∈
        mergeStep allFlags [c5GoodRow] ∧
      ({ c5GoodRow with extPrice := some (round2 (10 * (1/10))) } = c5GoodRow ↔
        c5GoodRow.extPrice = some (round2 (10 * (1/10))))) :=
  ⟨by decide, rfl, rfl,
    singleton_agg_changes_only_ext [c5GoodRow] "C9" c5GoodRow 10 (1/10) (by decide) rfl rfl⟩

/-- C8 counterexample: the first row of the C2 group has a null description,
but the merged description is the later row's "Resistor" — pandas `first`
takes the first non-null value, not the first row's value. -/
theorem desc_first_nonnull_cex :
    (groupRows [c8RowA, c8RowB] "C2").head? = some c8RowA ∧
    c8RowA.description = none ∧
    (mergeStep allFlags [c8RowA, c8RowB]).map Row.description = [some "Resistor"] ∧
    ¬ (some "Resistor" : Option String) = none := by
  decide

theorem firstSome_map_eq_none {α β : Type} (f : α → Option β) :
    ∀ l : List α, firstSome (l.map f) = none ↔ ∀ x ∈ l, f x = none
  | [] => by simp [firstSome]
  | a :: l => by
    rw [List.map_cons]
    cases hfa : f a with
    | some b =>
      simp only [firstSome]
      constructor
      · intro h; cases h
      · intro h
        exact absurd (h a (List.mem_cons_self a l)) (by simp [hfa])
    | none =>
      simp only [firstSome]
      rw [firstSome_map_eq_none f l]
      constructor
      · intro h x hx
        rcases List.mem_cons.mp hx with rfl | hx2
        · exact hfa
        · exact h x hx2
      · intro h x hx
        exact h x (List.mem_cons_of_mem a hx)

theorem firstSome_map_eq_some {α β : Type} (f : α → Option β) :
    ∀ (l : List α) (b : β), firstSome (l.map f) = some b ↔
      ∃ pre x post, l = pre ++ x :: post ∧ (∀ y ∈ pre, f y = none) ∧ f x = some b
  | [], b => by
    constructor
    · intro h
      simp only [List.map_nil, firstSome] at h
      cases h
    · rintro ⟨pre, x, post, hl, -, -⟩
      obtain ⟨-, h2⟩ := List.append_eq_nil.mp hl.symm
      cases h2
  | a :: l, b => by
    rw [List.map_cons]
    cases hfa : f a with
    | some c =>
      simp only [firstSome]
      constructor
      · intro h
        obtain rfl : c = b := Option.some.inj h
        exact ⟨[], a, l, rfl, by simp, hfa⟩
      · rintro ⟨pre, x, post, hl, hpre, hx⟩
        cases pre with
        | nil =>
          simp only [List.nil_append] at hl
          injection hl with h1 h2
          subst h1
          rw [hfa] at hx
          exact hx
        | cons p pre2 =>
          simp only [List.cons_append] at hl
          injection hl with h1 h2
          subst h1
          exact absurd (hpre a (List.mem_cons_self a pre2)) (by simp [hfa])
    | none =>
      simp only [firstSome]
      rw [firstSome_map_eq_some f l b]
      constructor
      · rintro ⟨pre, x, post, hl, hpre, hx⟩
        refine ⟨a :: pre, x, post, by rw [hl, List.cons_append], ?_, hx⟩
        intro y hy
        rcases List.mem_cons.mp hy with rfl | hy2
        · exact hfa
        · exact hpre y hy2
      · rintro ⟨pre, x, post, hl, hpre, hx⟩
        cases pre with
        | nil =>
          simp only [List.nil_append] at hl
          injection hl with h1 h2
          subst h1
          rw [hfa] at hx
          cases hx
        | cons p pre2 =>
          simp only [List.cons_append] at hl
          injection hl with h1 h2
          subst h1
          exact ⟨pre2, x, post, h2, fun y hy => hpre y (List.mem_cons_of_mem _ hy), hx⟩

/-- C8 (amended): for every group, the merged description and MPN are the
first non-null description and MPN of the group in concatenated input order
(pandas `first` skips nulls) — the merged value is `some d` exactly when the
group splits into an all-null-valued initial segment followed by a row
carrying `some d`, and null exactly when every row's value is null; in
particular they equal the first row's values whenever those are non-null.
The merged last-update date is the maximum of the dates present in the group
(it dominates every member and is attained by one). -/
theorem agg_first_nonnull_and_max_date (rows : List Row) (k : String)
    (hk : k ∈ tableKeys rows) :
    recompute allFlags (aggRow allFlags (groupRows rows k) k) ∈ mergeStep allFlags rows ∧
    (∀ d : String,
      (recompute allFlags (aggRow allFlags (groupRows rows k) k)).description = some d ↔
        ∃ pre x post, groupRows rows k = pre ++ x :: post ∧
          (∀ y ∈ pre, y.description = none) ∧ x.description = some d) ∧
    ((recompute allFlags (aggRow allFlags (groupRows rows k) k)).description = none ↔
      ∀ x ∈ groupRows rows k, x.description = none) ∧
    (∀ m : String,
      (recompute allFlags (aggRow allFlags (groupRows rows k) k)).mpn = some m ↔
        ∃ pre x post, groupRows rows k = pre ++ x :: post ∧
          (∀ y ∈ pre, y.mpn = none) ∧ x.mpn = some m) ∧
    ((recompute allFlags (aggRow allFlags (groupRows rows k) k)).mpn = none ↔
      ∀ x ∈ groupRows rows k, x.mpn = none) ∧
    (∀ x ∈ groupRows rows k, ∀ s : String, x.lastUpdate = some s →
      ∃ t, (recompute allFlags (aggRow allFlags (groupRows rows k) k)).lastUpdate = some t ∧
        strLe s t) ∧
    (∀ t : String,
      (recompute allFlags (aggRow allFlags (groupRows rows k) k)).lastUpdate = some t →
      ∃ x ∈ groupRows rows k, x.lastUpdate = some t) := by
  refine ⟨List.mem_map_of_mem _ hk, ?_, ?_, ?_, ?_, ?_, ?_⟩
  · intro d
    rw [recompute_description]
    exact firstSome_map_eq_some Row.description (groupRows rows k) d
  · rw [recompute_description]
    exact firstSome_map_eq_none Row.description (groupRows rows k)
  · intro m
    rw [recompute_mpn]
    exact firstSome_map_eq_some Row.mpn (groupRows rows k) m
  · rw [recompute_mpn]
    exact firstSome_map_eq_none Row.mpn (groupRows rows k)
  · intro x hx s hs
    rw [recompute_lastUpdate]
    show ∃ t, optMax strMax ((groupRows rows k).map Row.lastUpdate) = some t ∧ strLe s t
    exact optMax_str_dom _ s (List.mem_map.mpr ⟨x, hx, hs⟩)
  · intro t ht
    rw [recompute_lastUpdate] at ht
    have ht2 : optMax strMax ((groupRows rows k).map Row.lastUpdate) = some t := ht
    obtain ⟨x, hx, hxl⟩ := List.mem_map.mp (optMax_str_mem _ t ht2)
    exact ⟨x, hx, hxl⟩

/-- C8 (amended) witness: on the two-row C2 table in original input order —
whose first row has a null description — the merged description is the first
non-null one, the merged MPN the first row's, and the merged date the group
maximum. -/
theorem agg_first_nonnull_and_max_date_witness :
    "C2" ∈ tableKeys [c8RowA, c8RowB] ∧
    (recompute allFlags (aggRow allFlags (groupRows [c8RowA, c8RowB] "C2") "C2") ∈
        mergeStep allFlags [c8RowA, c8RowB] ∧
      (∀ d : String,
        (recompute allFlags
            (aggRow allFlags (groupRows [c8RowA, c8RowB] "C2") "C2")).description = some d ↔
          ∃ pre x post, groupRows [c8RowA, c8RowB] "C2" = pre ++ x :: post ∧
            (∀ y ∈ pre, y.description = none) ∧ x.description = some d) ∧
      ((recompute allFlags
          (aggRow allFlags (groupRows [c8RowA, c8RowB] "C2") "C2")).description = none ↔
        ∀ x ∈ groupRows [c8RowA, c8RowB] "C2", x.description = none) ∧
      (∀ m : String,
        (recompute allFlags
            (aggRow allFlags (groupRows [c8RowA, c8RowB] "C2") "C2")).mpn = some m ↔
          ∃ pre x post, groupRows [c8RowA, c8RowB] "C2" = pre ++ x :: post ∧
            (∀ y ∈ pre, y.mpn = none) ∧ x.mpn = some m) ∧
      ((recompute allFlags
          (aggRow allFlags (groupRows [c8RowA, c8RowB] "C2") "C2")).mpn = none ↔
        ∀ x ∈ groupRows [c8RowA, c8RowB] "C2", x.mpn = none) ∧
      (∀ x ∈ groupRows [c8RowA, c8RowB] "C2", ∀ s : String, x.lastUpdate = some s →
        ∃ t,
          (recompute allFlags
              (aggRow allFlags (groupRows [c8RowA, c8RowB] "C2") "C2")).lastUpdate = some t ∧
          strLe s t) ∧
      (∀ t : String,
        (recompute allFlags
            (aggRow allFlags (groupRows [c8RowA, c8RowB] "C2") "C2")).lastUpdate = some t →
        ∃ x ∈ groupRows [c8RowA, c8RowB] "C2", x.lastUpdate = some t)) :=
  ⟨by decide, agg_first_nonnull_and_max_date [c8RowA, c8RowB] "C2" (by decide)⟩

theorem ordRel_trans {a b c : OrderEntry} (h1 : ordRel a b) (h2 : ordRel b c) : ordRel a c := by
  unfold ordRel at h1 h2 ⊢
  rcases h1 with h1 | ⟨h1, h1'⟩ <;> rcases h2 with h2 | ⟨h2, h2'⟩
  · exact Or.inl (by omega)
  · exact Or.inl (by omega)
  · exact Or.inl (by omega)
  · exact Or.inr ⟨by omega, strLe_trans h1' h2'⟩

theorem ordRel_total (a b : OrderEntry) : ordRel a b ∨ ordRel b a := by
  unfold ordRel
  rcases Nat.lt_trichotomy (dateKey a) (dateKey b) with h | h | h
  · exact Or.inr (Or.inl h)
  · rcases strLe_total a.orderNum b.orderNum with hs | hs
    · exact Or.inl (Or.inr ⟨h, hs⟩)
    · exact Or.inr (Or.inr ⟨h.symm, hs⟩)
  · exact Or.inl (Or.inl h)

instance : IsTrans OrderEntry ordRel := ⟨fun _ _ _ => ordRel_trans⟩

instance : IsTotal OrderEntry ordRel := ⟨ordRel_total⟩

theorem dedupSeen_mem : ∀ (seen : List String) (l : List OrderEntry) (e : OrderEntry),
    e ∈ dedupSeen seen l → e ∈ l ∧ e.orderNum ∉ seen
  | _, [], e, h => by simp [dedupSeen] at h
  | seen, a :: rest, e, h => by
    simp only [dedupSeen] at h
    by_cases ha : a.orderNum ∈ seen
    · rw [if_pos ha] at h
      obtain ⟨h1, h2⟩ := dedupSeen_mem seen rest e h
      exact ⟨List.mem_cons_of_mem a h1, h2⟩
    · rw [if_neg ha] at h
      rcases List.mem_cons.mp h with rfl | h2
      · exact ⟨List.mem_cons_self e rest, ha⟩
      · obtain ⟨h1, h2⟩ := dedupSeen_mem (a.orderNum :: seen) rest e h2
        exact ⟨List.mem_cons_of_mem a h1, fun hs => h2 (List.mem_cons_of_mem _ hs)⟩

theorem dedupSeen_exists : ∀ (seen : List String) (l : List OrderEntry) (id : String),
    id ∈ l.map OrderEntry.orderNum → id ∉ seen →
    ∃ e, e ∈ dedupSeen seen l ∧ e.orderNum = id
  | _, [], id, h, _ => by simp at h
  | seen, a :: rest, id, h, hns => by
    simp only [dedupSeen]
    by_cases ha : a.orderNum ∈ seen
    · rw [if_pos ha]
      rcases List.mem_cons.mp h with h1 | h1
      · exact absurd (h1 ▸ ha) hns
      · exact dedupSeen_exists seen rest id h1 hns
    · rw [if_neg ha]
      by_cases hid : id = a.orderNum
      · exact ⟨a, List.mem_cons_self _ _, hid.symm⟩
      · have h1 : id ∈ rest.map OrderEntry.orderNum := by
          rcases List.mem_cons.mp h with h1 | h1
          · exact absurd h1 hid
          · exact h1
        have hns' : id ∉ a.orderNum :: seen := by
          intro hs
          rcases List.mem_cons.mp hs with hs | hs
          · exact hid hs
          · exact hns hs
        obtain ⟨e, he, hnum⟩ := dedupSeen_exists (a.orderNum :: seen) rest id h1 hns'
        exact ⟨e, List.mem_cons_of_mem a he, hnum⟩

theorem dedupSeen_unique : ∀ (seen : List String) (l : List OrderEntry) (e e' : OrderEntry),
    e ∈ dedupSeen seen l → e' ∈ dedupSeen seen l → e.orderNum = e'.orderNum → e = e'
  | _, [], e, _, he, _, _ => by simp [dedupSeen] at he
  | seen, a :: rest, e, e', he, he', heq => by
    simp only [dedupSeen] at he he'
    by_cases ha : a.orderNum ∈ seen
    · rw [if_pos ha] at he he'
      exact dedupSeen_unique seen rest e e' he he' heq
    · rw [if_neg ha] at he he'
      rcases List.mem_cons.mp he with rfl | he2 <;> rcases List.mem_cons.mp he' with rfl | he2'
      · rfl
      · exact absurd (heq ▸ (dedupSeen_mem _ rest e' he2').2)
          (fun hh => hh (List.mem_cons_self _ _))
      · exact absurd (heq.symm ▸ (dedupSeen_mem _ rest e he2).2)
          (fun hh => hh (List.mem_cons_self _ _))
      · exact dedupSeen_unique (a.orderNum :: seen) rest e e' he2 he2' heq

theorem dedupSeen_first {R : OrderEntry → OrderEntry → Prop} :
    ∀ (seen : List String) (l : List OrderEntry) (e : OrderEntry),
    l.Pairwise R → e ∈ dedupSeen seen l →
    ∀ x ∈ l, x.orderNum = e.orderNum → x = e ∨ R e x
  | _, [], _, _, _, x, hx, _ => by simp at hx
  | seen, a :: rest, e, hp, he, x, hx, hnum => by
    obtain ⟨hpa, hprest⟩ := List.pairwise_cons.mp hp
    simp only [dedupSeen] at he
    by_cases ha : a.orderNum ∈ seen
    · rw [if_pos ha] at he
      rcases List.mem_cons.mp hx with rfl | hx2
      · exact absurd (hnum ▸ ha) (dedupSeen_mem seen rest e he).2
      · exact dedupSeen_first seen rest e hprest he x hx2 hnum
    · rw [if_neg ha] at he
      rcases List.mem_cons.mp he with rfl | he2
      · rcases List.mem_cons.mp hx with rfl | hx2
        · exact Or.inl rfl
        · exact Or.inr (hpa x hx2)
      · have hmem := dedupSeen_mem (a.orderNum :: seen) rest e he2
        rcases List.mem_cons.mp hx with rfl | hx2
        · exact absurd (hnum.symm ▸ List.mem_cons_self x.orderNum seen)
            (fun _ => hmem.2 (hnum ▸ List.mem_cons_self _ _))
        · exact dedupSeen_first (a.orderNum :: seen) rest e hprest he2 x hx2 hnum

/-- C6: the deduplicated orders table contains exactly one entry per distinct
order identifier appearing in the input, namely an input entry for that
identifier whose date key is maximal — unparseable dates carry the smallest
key, so they sort as the oldest. -/
theorem orders_dedup_unique_latest (entries : List OrderEntry) (id : String)
    (h : id ∈ entries.map OrderEntry.orderNum) :
    ∃ e, e ∈ dedupOrders entries ∧ e.orderNum = id ∧ e ∈ entries ∧
      (∀ e', e' ∈ dedupOrders entries → e'.orderNum = id → e' = e) ∧
      (∀ e', e' ∈ entries → e'.orderNum = id → dateKey e' ≤ dateKey e) := by
  have hperm := List.perm_insertionSort ordRel entries
  have hsorted : (List.insertionSort ordRel entries).Pairwise ordRel :=
    List.sorted_insertionSort ordRel entries
  have hid : id ∈ (List.insertionSort ordRel entries).map OrderEntry.orderNum :=
    ((hperm.map OrderEntry.orderNum).mem_iff).mpr h
  obtain ⟨e, he, henum⟩ := dedupSeen_exists [] _ id hid (by simp)
  refine ⟨e, he, henum, ?_, ?_, ?_⟩
  · exact hperm.mem_iff.mp (dedupSeen_mem [] _ e he).1
  · intro e' he' hnum'
    exact dedupSeen_unique [] _ e' e he' he (hnum'.trans henum.symm)
  · intro e' he' hnum'
    have he's : e' ∈ List.insertionSort ordRel entries := hperm.mem_iff.mpr he'
    rcases dedupSeen_first [] _ e hsorted he e' he's (hnum'.trans henum.symm) with rfl | hrel
    · exact le_refl _
    · rcases hrel with hlt | ⟨heq, _⟩
      · exact le_of_lt hlt
      · exact le_of_eq heq.symm

/-- C6 witness: of the three concrete entries — the order EX123 seen with
dates 2024-01-02 and 2024-03-04 and a stray entry with an unparseable date —
exactly one EX123 entry survives, the one dated 2024-03-04. -/
theorem orders_dedup_unique_latest_witness :
    "EX123" ∈ [oe1, oe2, oe3].map OrderEntry.orderNum ∧
    (∃ e, e ∈ dedupOrders [oe1, oe2, oe3] ∧ e.orderNum = "EX123" ∧ e ∈ [oe1, oe2, oe3] ∧
      (∀ e', e' ∈ dedupOrders [oe1, oe2, oe3] → e'.orderNum = "EX123" → e' = e) ∧
      (∀ e', e' ∈ [oe1, oe2, oe3] → e'.orderNum = "EX123" → dateKey e' ≤ dateKey e)) :=
  ⟨by decide, orders_dedup_unique_latest [oe1, oe2, oe3] "EX123" (by decide)⟩

/-- C7 counterexample: the lowercase `xxxx` in the spec's example filename is
rejected by the `[A-Z0-9]+` character class of the filename regex, so parsing
yields the `Unknown` sentinels and not order "WM231015xxxx" with date
"2023-10-15". -/
theorem lowercase_filename_cex :
    deriveOrderIdDate "LCSC__WM231015xxxx_20250821103144.csv" = some ("Unknown", "Unknown") ∧
    ¬ deriveOrderIdDate "LCSC__WM231015xxxx_20250821103144.csv" =
        some ("WM231015xxxx", "2023-10-15") := by
  decide

/-- C7 (amended): with the placeholder written in uppercase the filename
matches the pattern: parsing yields order identifier "WM231015XXXX" and order
date "2023-10-15", derived from the YYMMDD digits embedded in the order
identifier and not from the 8-digit filename timestamp 20250821. -/
theorem filename_parse_example :
    deriveOrderIdDate "LCSC__WM231015XXXX_20250821103144.csv" =
      some ("WM231015XXXX", "2023-10-15") ∧
    parseOrderDate "WM231015XXXX" = "2023-10-15" := by
  decide

/-- C9: the crawler loop isolates failures: its record list is exactly the
successful fetches in input order — a failing part contributes no record, not
even a partial one — and its warning log holds exactly one line per failing
part, naming the part and the exception message; parts after a failure are
therefore still processed. -/
theorem runCrawl_skips_failures {α : Type} (fetchOne : String → Except String α)
    (parts : List String) :
    (runCrawlLoop fetchOne parts).1 = parts.filterMap (fun p => exceptOk (fetchOne p)) ∧
    (runCrawlLoop fetchOne parts).2 =
      parts.filterMap (fun p =>
        match fetchOne p with
        | Except.ok _ => none
        | Except.error e => some ("[WARN] Failed " ++ p ++ ": " ++ e)) := by
  induction parts with
  | nil => exact ⟨rfl, rfl⟩
  | cons p rest ih =>
    simp only [runCrawlLoop, List.filterMap_cons]
    cases hf : fetchOne p with
    | ok r => simp [hf, exceptOk, ih.1, ih.2]
    | error e => simp [hf, exceptOk, ih.1, ih.2]

end LcscTracker
